import Mathlib

/-!
Verification of the VercelSdkChat repository.

Shallow embedding of the agents module (`AgentExecutor`), the chat handler
(`handleChat`), the MCP client (`jsonSchemaToZod`, `getToolsAsAITools`), the
fallback MCP tools (`readFile`), and the skills module (`validateSkillName`,
`createSkill`).  External effects (the model provider, the MCP server, the
filesystem) are passed in as explicit parameters, and the calls the code makes
to them are recorded in the output, so that theorems can speak about "how many
provider calls were made" or "which filesystem writes happened".
-/

set_option linter.unusedVariables false

namespace Chat

/-! ## Agents module (multi-agent collaboration system)

Embeds the `AgentConfig`, `AgentResult`, `CollaborationTask` data model and the
`AgentExecutor.executeAgent` / `AgentExecutor.orchestrate` methods. -/

structure AgentConfig where
  name : String
  displayName : String
  description : String
  systemPrompt : String
deriving Repr, DecidableEq

/-- The fixed agent registry `agentConfigs` (an association list keyed by the
record key, mirroring the `Record<string, AgentConfig>` in the source; the long
role instructions are kept but abbreviated to their first line, no claim
depends on the prompt text). -/
def agentConfigs : List (String × AgentConfig) :=
  [ ("code-analyzer",
     { name := "code-analyzer", displayName := "代码分析师",
       description := "专门分析代码质量、复杂度和潜在问题",
       systemPrompt := "你是一个专业的代码分析师。" }),
    ("refactorer",
     { name := "refactorer", displayName := "重构专家",
       description := "专门提供代码重构建议和实现",
       systemPrompt := "你是一个专业的代码重构专家。" }),
    ("test-generator",
     { name := "test-generator", displayName := "测试专家",
       description := "专门生成单元测试和集成测试",
       systemPrompt := "你是一个专业的测试工程师。" }),
    ("documentation-writer",
     { name := "documentation-writer", displayName := "文档专家",
       description := "专门编写代码文档和 API 文档",
       systemPrompt := "你是一个专业的技术文档编写专家。" }),
    ("performance-optimizer",
     { name := "performance-optimizer", displayName := "性能优化师",
       description := "专门分析和优化代码性能",
       systemPrompt := "你是一个专业的性能优化专家。" }) ]

/-- One tool call reported by the model provider (`result.toolCalls` entries of
`generateText`): a tool name and its (JSON) arguments, the latter modelled as an
opaque string. -/
structure ProviderToolCall where
  toolName : String
  args : String
deriving Repr, DecidableEq

/-- The value of a successful `generateText` call as consumed by
`executeAgent`: the final text and the optional tool-call list. -/
structure ProviderResult where
  text : String
  toolCalls : Option (List ProviderToolCall)
deriving Repr, DecidableEq

/-- An entry of `AgentResult.toolCalls`: `{name, args, result}`. -/
structure AgentToolCallEntry where
  name : String
  args : String
  result : String
deriving Repr, DecidableEq

/-- `AgentResult` from the source. -/
structure AgentResult where
  agentName : String
  success : Bool
  result : String
  toolCalls : Option (List AgentToolCallEntry) := none
  error : Option String := none
deriving Repr, DecidableEq

/-- The single user message `executeAgent` builds: `task` alone, or
`任务: task\n\n上下文:\ncontext` when a context is supplied. -/
def buildUserMessage (task : String) (context : Option String) : String :=
  match context with
  | some c => "任务: " ++ task ++ "\n\n上下文:\n" ++ c
  | none => task

/-- Result of one `executeAgent` call together with the number of model
provider calls it made. -/
structure ExecOutcome where
  result : AgentResult
  providerCalls : Nat
deriving Repr, DecidableEq

/-- `maxSteps` passed by `executeAgent` to `generateText`. -/
def singleAgentMaxSteps : Nat := 3

/-- `maxSteps` passed by `orchestrate` to the planning `generateText` call. -/
def planningMaxSteps : Nat := 5

/-- `maxSteps` passed by `handleChat` to `generateText`. -/
def chatMaxSteps : Nat := 10

/-- `AgentExecutor.executeAgent`.  The behaviour of the single
`generateText(...)` call (bounded at `singleAgentMaxSteps` steps) is supplied
as `provider`: either a result or a thrown exception, modelled as
`Except String ProviderResult`.  An unknown agent name returns a local failure
before the provider is consulted (`providerCalls = 0`). -/
def executeAgent (agentName task : String) (context : Option String)
    (provider : Except String ProviderResult) : ExecOutcome :=
  match agentConfigs.lookup agentName with
  | none =>
      { result := { agentName := agentName, success := false, result := "",
                    error := some ("未找到 Agent: " ++ agentName) },
        providerCalls := 0 }
  | some _config =>
      -- the message history is [user (buildUserMessage task context)]
      match provider with
      | .ok r =>
          { result := { agentName := agentName, success := true, result := r.text,
                        toolCalls := r.toolCalls.map
                          (·.map fun c =>
                            { name := c.toolName, args := c.args, result := c.args }) },
            providerCalls := 1 }
      | .error e =>
          { result := { agentName := agentName, success := false, result := "",
                        error := some e },
            providerCalls := 1 }

end Chat

/-! ## Theorems about `executeAgent` (claims C3, C4) -/

namespace Chat

/-- C3: whenever the provider reports tool calls, every entry of the returned
`AgentResult.toolCalls` has its `result` field equal to that call's `args`
(the source populates `result` from `call.args`). -/
theorem C3_toolcall_result_is_args
    (agentName task : String) (context : Option String) (r : ProviderResult)
    (cfg : AgentConfig) (hreg : agentConfigs.lookup agentName = some cfg)
    (entries : List AgentToolCallEntry)
    (hcalls : (executeAgent agentName task context (.ok r)).result.toolCalls = some entries) :
    ∀ e ∈ entries, e.result = e.args := by
  intro e he
  simp only [executeAgent, hreg, Option.map_eq_some'] at hcalls
  obtain ⟨a, _, hmap⟩ := hcalls
  rw [← hmap] at he
  obtain ⟨c, _, hc⟩ := List.mem_map.mp he
  rw [← hc]

/-- Witness for C3 at a concrete known agent and provider result. -/
theorem C3_toolcall_result_is_args_witness :
    ({ name := "readFile", args := "A", result := "A" } : AgentToolCallEntry).result
      = ({ name := "readFile", args := "A", result := "A" } : AgentToolCallEntry).args :=
  C3_toolcall_result_is_args "code-analyzer" "t" none
    { text := "out", toolCalls := some [{ toolName := "readFile", args := "A" }] }
    ((agentConfigs.lookup "code-analyzer").get (by decide))
    (by decide)
    [{ name := "readFile", args := "A", result := "A" }]
    (by decide)
    { name := "readFile", args := "A", result := "A" }
    (List.mem_singleton.mpr rfl)

/-- C4: an agent name absent from the registry yields `success := false` with a
non-empty error, immediately and with zero model provider calls, whatever the
task, context and provider behaviour. -/
theorem C4_unknown_agent_local_failure
    (agentName task : String) (context : Option String)
    (provider : Except String ProviderResult)
    (habs : agentConfigs.lookup agentName = none) :
    (executeAgent agentName task context provider).result.success = false ∧
    (executeAgent agentName task context provider).result.error =
      some ("未找到 Agent: " ++ agentName) ∧
    ("未找到 Agent: " ++ agentName) ≠ "" ∧
    (executeAgent agentName task context provider).providerCalls = 0 := by
  refine ⟨by simp [executeAgent, habs], by simp [executeAgent, habs], ?_,
    by simp [executeAgent, habs]⟩
  intro h
  have hlen : ("未找到 Agent: " ++ agentName).length = 0 := by rw [h]; rfl
  rw [String.length_append] at hlen
  have hpos : 0 < "未找到 Agent: ".length := by decide
  omega

/-- Witness for C4 at the concrete unknown name `"ghost"`. -/
theorem C4_unknown_agent_local_failure_witness :
    (executeAgent "ghost" "t" none (.ok { text := "x", toolCalls := none })).result.success
      = false ∧
    (executeAgent "ghost" "t" none (.ok { text := "x", toolCalls := none })).result.error =
      some ("未找到 Agent: " ++ "ghost") ∧
    ("未找到 Agent: " ++ "ghost") ≠ "" ∧
    (executeAgent "ghost" "t" none (.ok { text := "x", toolCalls := none })).providerCalls
      = 0 :=
  C4_unknown_agent_local_failure "ghost" "t" none (.ok { text := "x", toolCalls := none })
    (by decide)

end Chat

/-! ## Orchestrator (`AgentExecutor.orchestrate`)

The planning `generateText` call (bounded at `planningMaxSteps` steps) is
supplied by its observable outcome: the optional tool-call list of the planning
result.  The per-specialist model calls are supplied as `provider` and routed
through `executeAgent`, exactly as the source calls `this.executeAgent`.
The execution phase additionally records the sequence of `executeAgent`
invocations made and the sequence of global task-list states the mutations of
the source pass through, so that ordering and status-transition claims can be
stated. -/

namespace Chat

inductive TaskStatus
  | pending
  | inProgress
  | completed
  | failed
deriving Repr, DecidableEq

/-- `CollaborationTask` from the source. -/
structure CollaborationTask where
  id : String
  description : String
  assignedAgent : String
  status : TaskStatus
  result : Option AgentResult := none
deriving Repr, DecidableEq

/-- The arguments of a `delegateToAgent` tool call, as cast by `orchestrate`.
Tool calls whose name is not `delegateToAgent` (e.g. `aggregateResults`) carry
arguments of other shapes which `orchestrate` never reads; for them this field
is immaterial since they are filtered out before the cast. -/
structure Delegation where
  agentName : String
  task : String
  context : Option String
deriving Repr, DecidableEq

/-- One entry of the planning result's `toolCalls`. -/
structure PlanToolCall where
  toolName : String
  args : Delegation
deriving Repr, DecidableEq

/-- `planResult.toolCalls?.filter(call => call.toolName === 'delegateToAgent')
.map(call => call.args) || []`. -/
def extractDelegations (planToolCalls : Option (List PlanToolCall)) : List Delegation :=
  ((planToolCalls.getD []).filter (fun c => c.toolName == "delegateToAgent")).map (·.args)

/-- `delegations.map((d, index) => ({id: task-(index+1), ...}))`, written with
an explicit index accumulator. -/
def mkTasksAux (i : Nat) : List Delegation → List CollaborationTask
  | [] => []
  | d :: rest =>
      { id := "task-" ++ toString (i + 1), description := d.task,
        assignedAgent := d.agentName, status := .pending } :: mkTasksAux (i + 1) rest

def mkTasks (delegations : List Delegation) : List CollaborationTask :=
  mkTasksAux 0 delegations

/-- The arguments of one `this.executeAgent(...)` call made by `orchestrate`. -/
structure ExecutorInvocation where
  agentName : String
  task : String
  context : Option String
deriving Repr, DecidableEq

structure Phase2Out where
  finalTasks : List CollaborationTask
  results : List AgentResult
  invocations : List ExecutorInvocation
  states : List (List CollaborationTask)
deriving Repr, DecidableEq

/-- The execution loop `for (const task of tasks) {...}` of `orchestrate`.
`done` holds the already-processed tasks (the loop mutates tasks in place; here
the task list is rebuilt around the processed prefix).  Each iteration sets the
task `in-progress`, looks up the FIRST delegation whose `agentName` equals the
task's `assignedAgent` (`delegations.find(...)` in the source), and if found
executes it, sets the final status from the executor's `success` flag, and
attaches the result.  `states` records every intermediate value of the task
list, in mutation order. -/
def runTasks (delegations : List Delegation)
    (exec : String → String → Option String → AgentResult) :
    List CollaborationTask → List CollaborationTask → Phase2Out
  | done, [] => { finalTasks := done, results := [], invocations := [], states := [done] }
  | done, t :: rest =>
      let t1 : CollaborationTask := { t with status := .inProgress }
      match delegations.find? (fun d => d.agentName == t.assignedAgent) with
      | some d =>
          let r := exec t.assignedAgent d.task d.context
          let fin : TaskStatus := if r.success then .completed else .failed
          let t2 : CollaborationTask := { t1 with status := fin }
          let t3 : CollaborationTask := { t2 with result := some r }
          let sub := runTasks delegations exec (done ++ [t3]) rest
          { finalTasks := sub.finalTasks,
            results := r :: sub.results,
            invocations := ⟨t.assignedAgent, d.task, d.context⟩ :: sub.invocations,
            states := (done ++ t :: rest) :: (done ++ t1 :: rest) :: (done ++ t2 :: rest)
                        :: sub.states }
      | none =>
          let sub := runTasks delegations exec (done ++ [t1]) rest
          { finalTasks := sub.finalTasks,
            results := sub.results,
            invocations := sub.invocations,
            states := (done ++ t :: rest) :: sub.states }

/-- `agentConfigs[r.agentName]?.displayName || r.agentName`. -/
def displayNameOf (agentName : String) : String :=
  match agentConfigs.lookup agentName with
  | some c => c.displayName
  | none => agentName

/-- The summary composition of `orchestrate` (a JS template of an undefined
`error` renders as the string `undefined`). -/
def summarize (results : List AgentResult) : String :=
  "## 协作结果\n\n" ++
    String.intercalate "\n\n"
      (results.map fun r =>
        "### " ++ displayNameOf r.agentName ++ "\n" ++
          (if r.success then r.result else "错误: " ++ r.error.getD "undefined"))

structure OrchestrateOut where
  plan : List CollaborationTask
  results : List AgentResult
  summary : String
  invocations : List ExecutorInvocation
  states : List (List CollaborationTask)
deriving Repr, DecidableEq

/-- `AgentExecutor.orchestrate`.  `planToolCalls` is the observable outcome of
the planning call; `provider` gives the model-provider behaviour of each
`executeAgent` invocation. -/
def orchestrate (planToolCalls : Option (List PlanToolCall))
    (provider : String → String → Option String → Except String ProviderResult) :
    OrchestrateOut :=
  let delegations := extractDelegations planToolCalls
  let tasks := mkTasks delegations
  let exec := fun agentName task context =>
    (executeAgent agentName task context (provider agentName task context)).result
  let p2 := runTasks delegations exec [] tasks
  { plan := p2.finalTasks, results := p2.results, summary := summarize p2.results,
    invocations := p2.invocations, states := p2.states }

end Chat

/-! ## Theorems about `orchestrate` (claims C1, C9) -/

namespace Chat

/-- A provider stub that always answers plain text. -/
def okProvider : String → String → Option String → Except String ProviderResult :=
  fun _ _ _ => .ok { text := "ok", toolCalls := none }

/-- A planning outcome that delegates to code-analyzer (task `t1`), then
refactorer (task `t2`), then code-analyzer again (task `t3`). -/
def dupPlanCalls : List PlanToolCall :=
  [ { toolName := "delegateToAgent",
      args := { agentName := "code-analyzer", task := "t1", context := none } },
    { toolName := "delegateToAgent",
      args := { agentName := "refactorer", task := "t2", context := none } },
    { toolName := "delegateToAgent",
      args := { agentName := "code-analyzer", task := "t3", context := none } } ]

/-- C1: on a plan delegating to agents B, A, B with tasks `t1`, `t2`, `t3`, the
execution order is B, A, B and the task list records descriptions
`t1, t2, t3`, but the third `executeAgent` invocation carries the FIRST
code-analyzer delegation's task `t1` instead of its own task `t3`:
`delegations.find(d => d.agentName === task.assignedAgent)` returns the first
matching delegation, so the invocation list disagrees with the plan's own
descriptions. -/
theorem C1_third_invocation_reuses_first_delegation :
    (orchestrate (some dupPlanCalls) okProvider).invocations.map (fun i => i.agentName)
        = ["code-analyzer", "refactorer", "code-analyzer"] ∧
    (orchestrate (some dupPlanCalls) okProvider).plan.map (fun t => t.description)
        = ["t1", "t2", "t3"] ∧
    (orchestrate (some dupPlanCalls) okProvider).invocations.map (fun i => i.task)
        = ["t1", "t2", "t1"] ∧
    ¬ (orchestrate (some dupPlanCalls) okProvider).invocations.map (fun i => i.task)
        = (orchestrate (some dupPlanCalls) okProvider).plan.map (fun t => t.description) := by
  refine ⟨?_, ?_, ?_, ?_⟩ <;> decide

/-- A single allowed (reflexive) forward edge of the task-status life cycle
pending → in-progress → (completed | failed). -/
def statusStep (a b : TaskStatus) : Prop :=
  a = b ∨ (a = .pending ∧ b = .inProgress) ∨
    (a = .inProgress ∧ (b = .completed ∨ b = .failed))

theorem statusStep_refl (a : TaskStatus) : statusStep a a := Or.inl rfl

theorem statusStep_start : statusStep .pending .inProgress := Or.inr (Or.inl ⟨rfl, rfl⟩)

theorem statusStep_finish (b : Bool) :
    statusStep .inProgress (if b then TaskStatus.completed else TaskStatus.failed) := by
  cases b
  · exact Or.inr (Or.inr ⟨rfl, Or.inr rfl⟩)
  · exact Or.inr (Or.inr ⟨rfl, Or.inl rfl⟩)

/-- Pointwise forward movement between two snapshots of the task list. -/
def stateForward (s s' : List CollaborationTask) : Prop :=
  List.Forall₂ (fun t t' => statusStep t.status t'.status) s s'

theorem forall₂_same {α : Type} {R : α → α → Prop} (h : ∀ a, R a a) :
    ∀ l : List α, List.Forall₂ R l l
  | [] => .nil
  | a :: l => .cons (h a) (forall₂_same h l)

theorem forall₂_append_both {α : Type} {R : α → α → Prop} :
    ∀ {l₁ l₂ u₁ u₂ : List α}, List.Forall₂ R l₁ l₂ → List.Forall₂ R u₁ u₂ →
      List.Forall₂ R (l₁ ++ u₁) (l₂ ++ u₂)
  | _, _, _, _, .nil, hu => hu
  | _, _, _, _, .cons h hl, hu => .cons h (forall₂_append_both hl hu)

/-- Changing one task in the middle along an allowed status edge moves the
whole state forward. -/
theorem stateForward_set (done rest : List CollaborationTask)
    {a b : CollaborationTask} (h : statusStep a.status b.status) :
    stateForward (done ++ a :: rest) (done ++ b :: rest) :=
  forall₂_append_both
    (@forall₂_same CollaborationTask (fun t t' => statusStep t.status t'.status)
      (fun t => statusStep_refl t.status) done)
    (.cons h
      (@forall₂_same CollaborationTask (fun t t' => statusStep t.status t'.status)
        (fun t => statusStep_refl t.status) rest))

theorem mem_append_cons {α : Type} {done rest : List α} {a t : α}
    (h : t ∈ done ++ a :: rest) : t ∈ done ∨ t = a ∨ t ∈ rest := by
  rcases List.mem_append.mp h with h | h
  · exact Or.inl h
  · rcases List.mem_cons.mp h with h | h
    · exact Or.inr (Or.inl h)
    · exact Or.inr (Or.inr h)

/-- The first recorded state of the execution loop is the task list on entry. -/
theorem runTasks_states_head (delegations : List Delegation)
    (exec : String → String → Option String → AgentResult) :
    ∀ todo done, (runTasks delegations exec done todo).states.head? = some (done ++ todo)
  | [], done => by simp [runTasks]
  | t :: rest, done => by
      simp only [runTasks]
      cases delegations.find? (fun d => d.agentName == t.assignedAgent) <;> simp

/-- If every pending task enters the loop pending, every pair of consecutive
task-list states moves only forward. -/
theorem runTasks_states_chain (delegations : List Delegation)
    (exec : String → String → Option String → AgentResult) :
    ∀ todo done, (∀ t ∈ todo, t.status = .pending) →
      List.Chain' stateForward (runTasks delegations exec done todo).states
  | [], done => fun _ => by simp [runTasks]
  | t :: rest, done => fun hp => by
      have hpt : t.status = .pending := hp t (List.mem_cons_self t rest)
      have hprest : ∀ x ∈ rest, x.status = .pending :=
        fun x hx => hp x (List.mem_cons_of_mem t hx)
      simp only [runTasks]
      cases hfind : delegations.find? (fun d => d.agentName == t.assignedAgent) with
      | none =>
          rw [List.chain'_cons']
          refine ⟨?_, runTasks_states_chain delegations exec rest (done ++ [_]) hprest⟩
          intro y hy
          rw [runTasks_states_head] at hy
          cases hy
          rw [List.append_assoc]
          exact stateForward_set done rest (hpt ▸ statusStep_start)
      | some d =>
          rw [List.chain'_cons, List.chain'_cons]
          refine ⟨stateForward_set done rest (hpt ▸ statusStep_start),
            stateForward_set done rest (statusStep_finish _), ?_⟩
          rw [List.chain'_cons']
          refine ⟨?_, runTasks_states_chain delegations exec rest (done ++ [_]) hprest⟩
          intro y hy
          rw [runTasks_states_head] at hy
          cases hy
          rw [List.append_assoc]
          exact stateForward_set done rest (statusStep_refl _)


/-- Splitting the result-population invariant over a snapshot whose middle task
still has no result. -/
theorem inv_mid {done rest : List CollaborationTask}
    (hdone : ∀ x ∈ done, x.result.isSome → x.status ≠ TaskStatus.pending)
    {u : CollaborationTask} (hu : u.result = none)
    (hnrest : ∀ x ∈ rest, x.result = none) :
    ∀ x ∈ done ++ u :: rest, x.result.isSome → x.status ≠ TaskStatus.pending := by
  intro x hx
  rcases mem_append_cons hx with h | h | h
  · exact hdone x h
  · subst h; intro hres; rw [hu] at hres; cases hres
  · intro hres; rw [hnrest x h] at hres; cases hres

/-- Pushing a finished task onto the processed prefix keeps the invariant. -/
theorem inv_push {done : List CollaborationTask}
    (hdone : ∀ x ∈ done, x.result.isSome → x.status ≠ TaskStatus.pending)
    {u : CollaborationTask} (hu : u.result.isSome → u.status ≠ TaskStatus.pending) :
    ∀ x ∈ done ++ [u], x.result.isSome → x.status ≠ TaskStatus.pending := by
  intro x hx
  rcases List.mem_append.mp hx with h | h
  · exact hdone x h
  · rcases List.mem_singleton.mp h
    exact hu

/-- Throughout the execution loop, a task's `result` is populated only in
states where its status has left `pending`. -/
theorem runTasks_result_after_pending (delegations : List Delegation)
    (exec : String → String → Option String → AgentResult) :
    ∀ todo done,
      (∀ x ∈ done, x.result.isSome → x.status ≠ TaskStatus.pending) →
      (∀ x ∈ todo, x.result = none) →
      ∀ st ∈ (runTasks delegations exec done todo).states, ∀ x ∈ st,
        x.result.isSome → x.status ≠ TaskStatus.pending
  | [], done => fun hdone _ st hst => by
      simp only [runTasks, List.mem_singleton] at hst
      exact hst ▸ hdone
  | t :: rest, done => fun hdone hnone => by
      have hnt : t.result = none := hnone t (List.mem_cons_self t rest)
      have hnrest : ∀ x ∈ rest, x.result = none :=
        fun x hx => hnone x (List.mem_cons_of_mem t hx)
      cases hfind : delegations.find? (fun d => d.agentName == t.assignedAgent) with
      | none =>
          simp only [runTasks, hfind]
          intro st hst
          rcases List.mem_cons.mp hst with h | h
          · exact h ▸ inv_mid hdone hnt hnrest
          · refine runTasks_result_after_pending delegations exec rest (done ++ [_])
              (inv_push hdone ?_) hnrest st h
            intro hres
            simp [hnt] at hres
      | some d =>
          simp only [runTasks, hfind]
          intro st hst
          rcases List.mem_cons.mp hst with h | hst
          · exact h ▸ inv_mid hdone hnt hnrest
          · rcases List.mem_cons.mp hst with h | hst
            · exact h ▸ inv_mid hdone hnt hnrest
            · rcases List.mem_cons.mp hst with h | hst
              · exact h ▸ inv_mid hdone hnt hnrest
              · refine runTasks_result_after_pending delegations exec rest (done ++ [_])
                  (inv_push hdone ?_) hnrest st hst
                intro _
                cases hs : (exec t.assignedAgent d.task d.context).success <;> simp [hs]

/-- The execution loop never changes a task's `assignedAgent` or
`description`: the final task list is the input list up to status/result. -/
theorem runTasks_finalTasks_map (delegations : List Delegation)
    (exec : String → String → Option String → AgentResult) :
    ∀ todo done,
      (runTasks delegations exec done todo).finalTasks.map
          (fun t => (t.assignedAgent, t.description)) =
        done.map (fun t => (t.assignedAgent, t.description)) ++
          todo.map (fun t => (t.assignedAgent, t.description))
  | [], done => by simp [runTasks]
  | t :: rest, done => by
      cases hfind : delegations.find? (fun d => d.agentName == t.assignedAgent) with
      | none =>
          simp only [runTasks, hfind]
          rw [runTasks_finalTasks_map delegations exec rest (done ++ [_])]
          simp
      | some d =>
          simp only [runTasks, hfind]
          rw [runTasks_finalTasks_map delegations exec rest (done ++ [_])]
          simp

/-- If every task entering the loop names an agent that occurs among the
delegations, every final task ends `completed` or `failed`. -/
theorem runTasks_final_statuses (delegations : List Delegation)
    (exec : String → String → Option String → AgentResult) :
    ∀ todo done,
      (∀ x ∈ done, x.status = TaskStatus.completed ∨ x.status = TaskStatus.failed) →
      (∀ x ∈ todo, ∃ d ∈ delegations, d.agentName = x.assignedAgent) →
      ∀ x ∈ (runTasks delegations exec done todo).finalTasks,
        x.status = TaskStatus.completed ∨ x.status = TaskStatus.failed
  | [], done => fun hdone _ => by
      simp only [runTasks]
      exact hdone
  | t :: rest, done => fun hdone hdel => by
      cases hfind : delegations.find? (fun d => d.agentName == t.assignedAgent) with
      | none =>
          obtain ⟨d, hd, heq⟩ := hdel t (List.mem_cons_self t rest)
          have := List.find?_eq_none.mp hfind d hd
          simp [heq] at this
      | some d =>
          simp only [runTasks, hfind]
          refine runTasks_final_statuses delegations exec rest (done ++ [_]) ?_
            (fun x hx => hdel x (List.mem_cons_of_mem t hx))
          intro x hx
          rcases List.mem_append.mp hx with h | h
          · exact hdone x h
          · rcases List.mem_singleton.mp h
            cases hs : (exec t.assignedAgent d.task d.context).success <;> simp [hs]

/-- `mkTasksAux` only repackages each delegation: agents and descriptions come
from the delegations, in order. -/
theorem mkTasksAux_map (l : List Delegation) :
    ∀ i, (mkTasksAux i l).map (fun t => (t.assignedAgent, t.description)) =
      l.map (fun d => (d.agentName, d.task)) := by
  induction l with
  | nil => intro i; simp [mkTasksAux]
  | cons d rest ih => intro i; simp [mkTasksAux, ih (i + 1)]

/-- Tasks built from delegations start pending, without result, and name an
agent occurring among the delegations. -/
theorem mkTasksAux_start (l : List Delegation) :
    ∀ i, ∀ t ∈ mkTasksAux i l,
      t.status = TaskStatus.pending ∧ t.result = none ∧
        ∃ d ∈ l, d.agentName = t.assignedAgent := by
  induction l with
  | nil => intro i t ht; simp [mkTasksAux] at ht
  | cons d rest ih =>
      intro i t ht
      rcases List.mem_cons.mp ht with h | h
      · subst h
        exact ⟨rfl, rfl, d, List.mem_cons_self d rest, rfl⟩
      · obtain ⟨hp, hr, d', hd', heq⟩ := ih (i + 1) t h
        exact ⟨hp, hr, d', List.mem_cons_of_mem d hd', heq⟩

/-- C9: in every orchestrate run, (a) the returned plan lists the tasks in the
order the delegations were extracted; (b) along the whole mutation history of
the task list, each task's status only moves forward through
pending → in-progress → (completed | failed); (c) in every intermediate state a
populated `result` implies the status has left `pending`; (d) every task in the
returned plan ends `completed` or `failed`. -/
theorem C9_task_lifecycle (planToolCalls : Option (List PlanToolCall))
    (provider : String → String → Option String → Except String ProviderResult) :
    (orchestrate planToolCalls provider).plan.map
        (fun t => (t.assignedAgent, t.description)) =
      (extractDelegations planToolCalls).map (fun d => (d.agentName, d.task)) ∧
    List.Chain' stateForward (orchestrate planToolCalls provider).states ∧
    (∀ st ∈ (orchestrate planToolCalls provider).states, ∀ t ∈ st,
      t.result.isSome → t.status ≠ TaskStatus.pending) ∧
    (∀ t ∈ (orchestrate planToolCalls provider).plan,
      t.status = TaskStatus.completed ∨ t.status = TaskStatus.failed) := by
  refine ⟨?_, ?_, ?_, ?_⟩
  · show (runTasks _ _ [] (mkTasks (extractDelegations planToolCalls))).finalTasks.map _ = _
    rw [runTasks_finalTasks_map]
    simp [mkTasks, mkTasksAux_map]
  · exact runTasks_states_chain _ _ _ []
      (fun t ht => (mkTasksAux_start _ 0 t ht).1)
  · exact runTasks_result_after_pending _ _ _ [] (by simp)
      (fun t ht => (mkTasksAux_start _ 0 t ht).2.1)
  · exact runTasks_final_statuses _ _ _ [] (by simp)
      (fun t ht => (mkTasksAux_start _ 0 t ht).2.2)

/-- A planning outcome with a single delegation, used to witness C9. -/
def wPlanCalls : List PlanToolCall :=
  [ { toolName := "delegateToAgent",
      args := { agentName := "test-generator", task := "w1", context := none } } ]

/-- Witness for C9: the single task of a concrete run ends completed or
failed. -/
theorem C9_task_lifecycle_witness :
    ((orchestrate (some wPlanCalls) okProvider).plan.getD 0
        { id := "", description := "", assignedAgent := "", status := .pending }).status
      = TaskStatus.completed ∨
    ((orchestrate (some wPlanCalls) okProvider).plan.getD 0
        { id := "", description := "", assignedAgent := "", status := .pending }).status
      = TaskStatus.failed :=
  (C9_task_lifecycle (some wPlanCalls) okProvider).2.2.2 _ (by decide)

/-! ## Multi-step chat loop (`handleChat`, chat handler module)

The chat `generateText` call (bounded at `chatMaxSteps` steps) delivers one
`onStepFinish` callback per completed step and then either returns a result or
throws.  `handleChat` is embedded as a function from that observable outcome to
the ordered list of events written to the SSE sink together with the number of
times the sink was closed (`res.end()`). -/

structure ChatToolCall where
  toolCallId : String
  toolName : String
  args : String
deriving Repr, DecidableEq

structure ChatToolResult where
  toolCallId : String
  toolName : String
  result : String
deriving Repr, DecidableEq

/-- One completed step as delivered to `onStepFinish`. -/
structure ChatStep where
  text : String
  toolCalls : List ChatToolCall
  toolResults : List ChatToolResult
deriving Repr, DecidableEq

/-- The final value of the chat `generateText` call. -/
structure ChatGenResult where
  steps : List ChatStep
  text : String
  toolCalls : List ChatToolCall
  toolResults : List ChatToolResult
deriving Repr, DecidableEq

/-- One event written to the response sink (one `data:` SSE frame or the
closing of the response). -/
inductive ChatEvent
  | text (s : String)
  | toolCalling (name : String) (args : String)
  | toolCompleted (name : String) (result : String)
  | toolSummary (entries : List (String × Option ChatToolResult))
  | errorEvent (message : String)
  | doneMarker
deriving Repr, DecidableEq

/-- The events `onStepFinish` writes for one completed step: the step text if
non-empty, then one `status:"calling"` event per tool call, then one
`status:"completed"` event per tool result. -/
def stepEvents (s : ChatStep) : List ChatEvent :=
  (if s.text = "" then [] else [ChatEvent.text s.text]) ++
    s.toolCalls.map (fun tc => ChatEvent.toolCalling tc.toolName tc.args) ++
    s.toolResults.map (fun tr => ChatEvent.toolCompleted tr.toolName tr.result)

/-- The observable behaviour of the chat `generateText` call: it completes
with a result after delivering the callbacks for `r.steps`, or it throws (a
provider or tool exception) after having delivered the callbacks for some
prefix of the steps. -/
inductive ChatOutcome
  | ok (r : ChatGenResult)
  | thrown (delivered : List ChatStep) (message : String)
deriving Repr, DecidableEq

/-- The final tool-call summary: each overall tool call paired with the tool
result matched by `toolCallId`. -/
def toolSummaryEntries (r : ChatGenResult) : List (String × Option ChatToolResult) :=
  r.toolCalls.map (fun tc =>
    (tc.toolName, r.toolResults.find? (fun tr => tr.toolCallId == tc.toolCallId)))

/-- `handleChat`: the ordered event list written to the sink and the number of
`res.end()` calls.  On success: the per-step events, the trailing final text if
non-empty, the tool-call summary if any tool call occurred, then the terminal
`[DONE]` marker.  On an exception: the per-step events already delivered, one
error event, then the terminal marker.  Both paths end the response once. -/
def handleChat (outcome : ChatOutcome) : List ChatEvent × Nat :=
  match outcome with
  | .ok r =>
      ((r.steps.map stepEvents).flatten ++
        (if r.text = "" then [] else [ChatEvent.text r.text]) ++
        (if r.toolCalls = [] then [] else [ChatEvent.toolSummary (toolSummaryEntries r)]) ++
        [ChatEvent.doneMarker], 1)
  | .thrown delivered msg =>
      ((delivered.map stepEvents).flatten ++ [ChatEvent.errorEvent msg] ++
        [ChatEvent.doneMarker], 1)

def isDoneMarker : ChatEvent → Bool
  | .doneMarker => true
  | _ => false

def isErrorEvent : ChatEvent → Bool
  | .errorEvent _ => true
  | _ => false

theorem stepEvents_plain (s : ChatStep) :
    ∀ e ∈ stepEvents s, isDoneMarker e = false ∧ isErrorEvent e = false := by
  intro e he
  rcases List.mem_append.mp he with h | h
  · rcases List.mem_append.mp h with h | h
    · split at h
      · simp at h
      · simp at h
        simp [h, isDoneMarker, isErrorEvent]
    · obtain ⟨tc, _, h⟩ := List.mem_map.mp h
      simp [← h, isDoneMarker, isErrorEvent]
  · obtain ⟨tr, _, h⟩ := List.mem_map.mp h
    simp [← h, isDoneMarker, isErrorEvent]

theorem stepEvents_flat_count (p : ChatEvent → Bool)
    (hp : ∀ s : ChatStep, ∀ e ∈ stepEvents s, p e = false) :
    ∀ steps : List ChatStep, ((steps.map stepEvents).flatten).countP p = 0
  | [] => by simp
  | s :: rest => by
      simp only [List.map_cons, List.flatten_cons, List.countP_append]
      rw [stepEvents_flat_count p hp rest,
        List.countP_eq_zero.mpr (fun a ha => by simp [hp s a ha])]

/-- C2: for every behaviour of the provider and the tools, the emitted event
sequence contains exactly one terminal `[DONE]` marker, emitted last; the sink
is closed exactly once; and exactly one error event is emitted (before the
terminal marker) on the exception path, none on the success path. -/
theorem C2_stream_always_terminates (outcome : ChatOutcome) :
    (handleChat outcome).1.countP isDoneMarker = 1 ∧
    (handleChat outcome).1.getLast? = some ChatEvent.doneMarker ∧
    (handleChat outcome).2 = 1 ∧
    (handleChat outcome).1.countP isErrorEvent =
      (match outcome with | .ok _ => 0 | .thrown _ _ => 1) := by
  cases outcome with
  | ok r =>
      refine ⟨?_, ?_, rfl, ?_⟩
      · simp only [handleChat, List.countP_append,
          stepEvents_flat_count isDoneMarker (fun s => by
            intro e he; exact (stepEvents_plain s e he).1) r.steps]
        split <;> split <;> simp [isDoneMarker, List.countP_cons, List.countP_nil]
      · show (_ ++ _ ++ _ ++ [ChatEvent.doneMarker]).getLast? = _
        rw [List.getLast?_concat]
      · simp only [handleChat, List.countP_append,
          stepEvents_flat_count isErrorEvent (fun s => by
            intro e he; exact (stepEvents_plain s e he).2) r.steps]
        split <;> split <;> simp [isErrorEvent, List.countP_cons, List.countP_nil]
  | thrown delivered msg =>
      refine ⟨?_, ?_, rfl, ?_⟩
      · simp only [handleChat, List.countP_append,
          stepEvents_flat_count isDoneMarker (fun s => by
            intro e he; exact (stepEvents_plain s e he).1) delivered]
        simp [isDoneMarker, List.countP_cons, List.countP_nil]
      · show (_ ++ _ ++ [ChatEvent.doneMarker]).getLast? = _
        rw [List.getLast?_concat]
      · simp only [handleChat, List.countP_append,
          stepEvents_flat_count isErrorEvent (fun s => by
            intro e he; exact (stepEvents_plain s e he).2) delivered]
        simp [isErrorEvent, List.countP_cons, List.countP_nil]

end Chat

/-! ## Bounded tool-calling loop (claim C5)

Modelled from the spec: the bounded multi-step loop itself lives inside the
Model Provider (`generateText` of the AI SDK, not part of this repository's
sources); the spec's external-interface contract says the provider supports "a
hard step ceiling".  Each step invokes the provider once; the loop continues
while the last step requested another tool call and the step budget is not
exhausted.  The three ceilings 3 / 5 / 10 are the `maxSteps` values at the
three call sites in the sources (`singleAgentMaxSteps`, `planningMaxSteps`,
`chatMaxSteps` above). -/

namespace Chat

/-- Number of provider invocations made by the bounded step loop:
`requestsTool i` says whether the i-th provider invocation requests another
tool call; `fuel` is the remaining step budget. -/
def stepLoopCalls (requestsTool : Nat → Bool) : Nat → Nat → Nat
  | 0, _ => 0
  | fuel + 1, i => 1 + (if requestsTool i then stepLoopCalls requestsTool fuel (i + 1) else 0)

/-- Provider invocations of one `generateText` call with step ceiling
`maxSteps`. -/
def providerCallsOf (requestsTool : Nat → Bool) (maxSteps : Nat) : Nat :=
  stepLoopCalls requestsTool maxSteps 0

theorem stepLoopCalls_le (f : Nat → Bool) :
    ∀ fuel i, stepLoopCalls f fuel i ≤ fuel
  | 0, _ => Nat.le_refl 0
  | fuel + 1, i => by
      simp only [stepLoopCalls]
      split
      · have := stepLoopCalls_le f fuel (i + 1)
        omega
      · omega

theorem stepLoopCalls_always_tools (fuel : Nat) :
    ∀ i, stepLoopCalls (fun _ => true) fuel i = fuel := by
  induction fuel with
  | zero => intro i; rfl
  | succ n ih => intro i; simp [stepLoopCalls, ih (i + 1)]; omega

/-- C5: every bounded loop invokes the provider at most its configured step
ceiling, and a provider stub that always requests another tool call is invoked
exactly the ceiling: 3 steps for the Single-Agent Executor, 5 for the
Orchestrator's planning call, 10 for the Multi-Step Chat Loop. -/
theorem C5_step_budgets :
    (∀ f, providerCallsOf f singleAgentMaxSteps ≤ singleAgentMaxSteps) ∧
    (∀ f, providerCallsOf f planningMaxSteps ≤ planningMaxSteps) ∧
    (∀ f, providerCallsOf f chatMaxSteps ≤ chatMaxSteps) ∧
    providerCallsOf (fun _ => true) singleAgentMaxSteps = 3 ∧
    providerCallsOf (fun _ => true) planningMaxSteps = 5 ∧
    providerCallsOf (fun _ => true) chatMaxSteps = 10 :=
  ⟨fun f => stepLoopCalls_le f _ 0, fun f => stepLoopCalls_le f _ 0,
    fun f => stepLoopCalls_le f _ 0,
    stepLoopCalls_always_tools _ 0, stepLoopCalls_always_tools _ 0,
    stepLoopCalls_always_tools _ 0⟩

end Chat

/-! ## MCP client module (`jsonSchemaToZod`, `getToolsAsAITools`)

The JSON-Schema-to-Zod translation and the merging of remote tools into the
AI-SDK tool registry. -/

namespace Chat

mutual
/-- An external JSON Schema value, restricted to the fields `jsonSchemaToZod`
reads: `type`, `description`, `items`, `properties`, `required` (every other
field of the schema object is never inspected by the function). -/
inductive RawSchema
  | mk (ty : Option String) (descr : Option String) (items : Option RawSchema)
      (props : Option RawProps) (required : Option (List String))

/-- The `properties` record of an object schema: an ordered list of
field-name / schema pairs (`none` vs `some nil` distinguishes an absent
`properties` field from an empty one, matching JS truthiness of `{}`). -/
inductive RawProps
  | nil
  | cons (key : String) (s : RawSchema) (rest : RawProps)
end

mutual
/-- The target of the translation: the Zod validators the function builds
(`z.string()`, `z.number()`, `z.boolean()`, `z.any()`, `z.array(_)`,
`z.object(_)`).  `.describe(...)` annotations carry no validation meaning and
are not modelled. -/
inductive ZodType
  | zstring
  | znumber
  | zboolean
  | zany
  | zarray (elem : ZodType)
  | zobject (fields : ZFields)

/-- The shape of a `z.object`: field name, field validator, and whether
`.optional()` was applied. -/
inductive ZFields
  | nil
  | cons (key : String) (t : ZodType) (opt : Bool) (rest : ZFields)
end

mutual
/-- `jsonSchemaToZod` from the MCP client module: primitive kinds map
directly (`integer` also to `z.number()`); `array` recurses into `items`,
defaulting to `{type:"string"}` (which maps to `z.string()`) when `items` is
absent; `object` — or any schema with a `properties` field — recurses
field-by-field, a field being `.optional()` unless listed in `required`;
anything else maps to `z.any()`. -/
def jsonSchemaToZod : RawSchema → ZodType
  | .mk ty _ items props required =>
      if ty = some "string" then .zstring
      else if ty = some "number" ∨ ty = some "integer" then .znumber
      else if ty = some "boolean" then .zboolean
      else if ty = some "array" then
        match items with
        | some s => .zarray (jsonSchemaToZod s)
        | none => .zarray .zstring
      else if ty = some "object" ∨ props.isSome = true then
        match props with
        | some p => .zobject (propsToZod p (required.getD []))
        | none => .zobject .nil
      else .zany

/-- The `shape` built for an object schema:
`required.includes(key) ? prop : prop.optional()`. -/
def propsToZod : RawProps → List String → ZFields
  | .nil, _ => .nil
  | .cons key s rest, required =>
      .cons key (jsonSchemaToZod s) (!(required.contains key)) (propsToZod rest required)
end

/-- A JSON value, for running the translated validators. -/
inductive Json
  | str (s : String)
  | num (n : Int)
  | jbool (b : Bool)
  | jnull
  | arr (elems : List Json)
  | obj (fields : List (String × Json))

/-- First binding of a key in a JSON object. -/
def lookupJson : List (String × Json) → String → Option Json
  | [], _ => none
  | (k, v) :: rest, key => if k == key then some v else lookupJson rest key

mutual
/-- Zod validation semantics of the translated schemas: a declared object
field must validate if present and must be `.optional()` if absent; unknown
keys are stripped, not rejected; `z.any()` accepts everything. -/
def accepts : ZodType → Json → Bool
  | .zstring, .str _ => true
  | .zstring, _ => false
  | .znumber, .num _ => true
  | .znumber, _ => false
  | .zboolean, .jbool _ => true
  | .zboolean, _ => false
  | .zany, _ => true
  | .zarray e, .arr xs => xs.all (fun x => accepts e x)
  | .zarray _, _ => false
  | .zobject fields, .obj o => acceptsFields fields o
  | .zobject _, _ => false

def acceptsFields : ZFields → List (String × Json) → Bool
  | .nil, _ => true
  | .cons key t opt rest, o =>
      (match lookupJson o key with
       | some v => accepts t v
       | none => opt) && acceptsFields rest o
end

/-- Whether an object schema's `properties` record declares a key. -/
def propsHasKey : RawProps → String → Bool
  | .nil, _ => false
  | .cons k _ rest, key => k == key || propsHasKey rest key

/-- A declared field listed in `required` makes the translated validator
reject any object missing that key. -/
theorem propsToZod_required_missing :
    ∀ (p : RawProps) (req : List String) (key : String) (o : List (String × Json)),
      req.contains key = true → propsHasKey p key = true → lookupJson o key = none →
      acceptsFields (propsToZod p req) o = false
  | .nil => by
      intro req key o _ h _
      simp [propsHasKey] at h
  | .cons k s rest => by
      intro req key o hreq hkey ho
      simp only [propsHasKey, Bool.or_eq_true] at hkey
      simp only [propsToZod, acceptsFields]
      rcases hkey with hk | hk
      · have hkk := eq_of_beq hk
        subst hkk
        rw [ho, hreq]
        simp
      · rw [propsToZod_required_missing rest req key o hreq hk ho]
        simp

/-- The object-example schema of the claim:
`{type:"object", properties:{path:{type:"string"}}, required:["path"]}`. -/
def pathSchema : RawSchema :=
  .mk (some "object") none none
    (some (.cons "path" (.mk (some "string") none none none none) .nil))
    (some ["path"])

/-- The array-example schema of the claim:
`{type:"array", items:{type:"number"}}`. -/
def numberArraySchema : RawSchema :=
  .mk (some "array") none (some (.mk (some "number") none none none none)) none none

/-- C6: the schema translation maps string/number/integer/boolean directly;
arrays recurse into their element schema, defaulting to a string element;
object kinds translate field-by-field, where a field listed in `required` is
mandatory (its absence is rejected) and a field not listed is optional (its
absence is skipped); a kind that is none of the recognized ones and has no
`properties` field maps to the accept-anything validator; and the two example
schemas behave as claimed. -/
theorem C6_schema_translation :
    (∀ d it p req, jsonSchemaToZod (.mk (some "string") d it p req) = .zstring) ∧
    (∀ d it p req, jsonSchemaToZod (.mk (some "number") d it p req) = .znumber) ∧
    (∀ d it p req, jsonSchemaToZod (.mk (some "integer") d it p req) = .znumber) ∧
    (∀ d it p req, jsonSchemaToZod (.mk (some "boolean") d it p req) = .zboolean) ∧
    (∀ d s p req, jsonSchemaToZod (.mk (some "array") d (some s) p req)
        = .zarray (jsonSchemaToZod s)) ∧
    (∀ d p req, jsonSchemaToZod (.mk (some "array") d none p req) = .zarray .zstring) ∧
    (∀ d it p req, jsonSchemaToZod (.mk (some "object") d it (some p) (some req))
        = .zobject (propsToZod p req)) ∧
    (∀ p req key o, req.contains key = true → propsHasKey p key = true →
        lookupJson o key = none → acceptsFields (propsToZod p req) o = false) ∧
    (∀ key s rest req o, req.contains key = false → lookupJson o key = none →
        acceptsFields (propsToZod (.cons key s rest) req) o
          = acceptsFields (propsToZod rest req) o) ∧
    (∀ ty d it req,
        ¬(ty = some "string" ∨ ty = some "number" ∨ ty = some "integer" ∨
          ty = some "boolean" ∨ ty = some "array" ∨ ty = some "object") →
        jsonSchemaToZod (.mk ty d it none req) = .zany) ∧
    (∀ j, accepts .zany j = true) ∧
    accepts (jsonSchemaToZod pathSchema) (.obj [("path", .str "a.txt")]) = true ∧
    accepts (jsonSchemaToZod pathSchema) (.obj []) = false ∧
    jsonSchemaToZod numberArraySchema = .zarray .znumber ∧
    accepts (jsonSchemaToZod numberArraySchema) (.arr [.num 1, .num 2]) = true := by
  refine ⟨?_, ?_, ?_, ?_, ?_, ?_, ?_, propsToZod_required_missing, ?_, ?_,
    fun j => rfl, rfl, rfl, rfl, rfl⟩
  · intro d it p req; rw [jsonSchemaToZod.eq_def]; simp
  · intro d it p req; rw [jsonSchemaToZod.eq_def]; simp
  · intro d it p req; rw [jsonSchemaToZod.eq_def]; simp
  · intro d it p req; rw [jsonSchemaToZod.eq_def]; simp
  · intro d s p req; rw [jsonSchemaToZod.eq_def]; simp
  · intro d p req; rw [jsonSchemaToZod.eq_def]; simp
  · intro d it p req; rw [jsonSchemaToZod.eq_def]; simp
  · intro key s rest req o hreq ho
    simp only [propsToZod, acceptsFields, ho, hreq]
    simp
  · intro ty d it req h
    push_neg at h
    obtain ⟨h1, h2, h3, h4, h5, h6⟩ := h
    rw [jsonSchemaToZod.eq_def]
    simp [h1, h2, h3, h4, h5, h6]

/-- Witness for C6: the required-field rejection and the accept-anything
fallback at concrete inputs. -/
theorem C6_schema_translation_witness :
    acceptsFields (propsToZod
      (.cons "path" (.mk (some "string") none none none none) .nil) ["path"]) [] = false ∧
    jsonSchemaToZod (.mk (some "weird") none none none none) = .zany :=
  ⟨C6_schema_translation.2.2.2.2.2.2.2.1
      (.cons "path" (.mk (some "string") none none none none) .nil) ["path"] "path" []
      (by decide) (by decide) rfl,
    C6_schema_translation.2.2.2.2.2.2.2.2.2.1 (some "weird") none none none (by decide)⟩

end Chat

/-! ## Fallback MCP tools (`fallbackMcpTools.readFile`) and error containment -/

namespace Chat

/-- The structured failure payload `readFile.execute` returns when the MCP
filesystem server is unavailable or the call throws. -/
structure FallbackPayload where
  success : Bool
  content : Option String
  message : String
  hint : Option String

/-- What `readFile.execute` returns: either the MCP server's own result, or
the structured fallback payload — never a thrown exception. -/
inductive ReadFileResult
  | mcp (r : Json)
  | fallback (p : FallbackPayload)

def readFileFallback : FallbackPayload :=
  { success := false, content := none,
    message := "MCP 文件系统服务器未连接，无法读取文件",
    hint := some "请确保 MCP 服务器已启动" }

/-- `fallbackMcpTools.readFile.execute`: when the client manager is
initialized it tries `callTool('filesystem', 'read_file', {path})` and returns
its result; a thrown error is caught (and logged), falling through — like the
uninitialized case — to the structured fallback payload. -/
def readFileExecute (initialized : Bool) (callResult : Except String Json) :
    ReadFileResult :=
  if initialized then
    match callResult with
    | .ok r => .mcp r
    | .error _ => .fallback readFileFallback
  else .fallback readFileFallback

/-- C7: no exception escapes the Single-Agent Executor or the tool's execute
call: a provider exception makes `executeAgent` return `success := false`
carrying the exception message (for a registered agent) or the unknown-agent
error; and `readFile.execute` returns the structured `success := false`
payload both when the backing server is unavailable and when the call throws,
instead of throwing. -/
theorem C7_errors_contained (name task : String) (context : Option String)
    (msg : String) (callResult : Except String Json) (e : String) :
    (executeAgent name task context (.error msg)).result.success = false ∧
    ((executeAgent name task context (.error msg)).result.error = some msg ∨
      (executeAgent name task context (.error msg)).result.error =
        some ("未找到 Agent: " ++ name)) ∧
    readFileExecute false callResult = .fallback readFileFallback ∧
    readFileExecute true (.error e) = .fallback readFileFallback ∧
    readFileFallback.success = false := by
  refine ⟨?_, ?_, rfl, rfl, rfl⟩ <;>
    cases h : agentConfigs.lookup name <;> simp [executeAgent, h]

end Chat

/-! ## MCP client manager: merging remote tools (`getToolsAsAITools`) -/

namespace Chat

inductive MCPStatus
  | connected
  | disconnected
  | error
deriving Repr, DecidableEq

/-- A tool definition introspected from a remote MCP server. -/
structure MCPToolDef where
  description : Option String
  inputSchema : Option RawSchema

/-- `MCPClientInstance` from the source; `hasClient` models the
`!instance.client` null check. -/
structure MCPClientInstance where
  name : String
  status : MCPStatus
  hasClient : Bool
  tools : List (String × MCPToolDef)

/-- The AI-SDK tool built for one remote tool: description, translated
parameter schema, and the data captured by its execute closure (which client
it calls and which original tool name it passes to `callTool`). -/
structure AITool where
  description : String
  parameters : ZodType
  sourceClient : String
  backingTool : String

/-- JS object property assignment `obj[k] = v` (last assignment wins). -/
def jsAssign {α : Type} (m : List (String × α)) (k : String) (v : α) :
    List (String × α) :=
  m ++ [(k, v)]

/-- JS object property read `obj[k]`: the last assigned value for the key. -/
def jsLookup {α : Type} (m : List (String × α)) (k : String) : Option α :=
  match m.reverse.find? (fun e => e.1 == k) with
  | some e => some e.2
  | none => none

theorem jsLookup_assign {α : Type} (m : List (String × α)) (k k' : String) (v : α) :
    jsLookup (jsAssign m k v) k' = if k == k' then some v else jsLookup m k' := by
  unfold jsLookup jsAssign
  rw [List.reverse_append, List.reverse_singleton, List.singleton_append,
    List.find?_cons]
  cases h : (k == k') <;> simp [h]

/-- The AI tool built for one remote tool (description defaulting, schema
translation defaulting to `z.object({})` when no input schema is exposed). -/
def mkAITool (clientName toolName : String) (td : MCPToolDef) : AITool :=
  { description := td.description.getD ("MCP tool: " ++ toolName),
    parameters :=
      match td.inputSchema with
      | some s => jsonSchemaToZod s
      | none => ZodType.zobject .nil,
    sourceClient := clientName,
    backingTool := toolName }

/-- The inner loop of `getToolsAsAITools`: register every tool of one
connected client under the composed name `<clientName>_<toolName>`. -/
def toolsFold (clientName : String) :
    List (String × MCPToolDef) → List (String × AITool) → List (String × AITool)
  | [], acc => acc
  | (tn, td) :: rest, acc =>
      toolsFold clientName rest
        (jsAssign acc (clientName ++ "_" ++ tn) (mkAITool clientName tn td))

/-- The outer loop of `getToolsAsAITools`: clients that are not connected or
have no client object are skipped. -/
def clientsFold : List MCPClientInstance → List (String × AITool) → List (String × AITool)
  | [], acc => acc
  | inst :: rest, acc =>
      clientsFold rest
        (if inst.status = .connected ∧ inst.hasClient = true then
          toolsFold inst.name inst.tools acc
        else acc)

/-- `MCPClientManager.getToolsAsAITools` (the `try/catch` around each tool
conversion catches conversion throws; the embedded translation is total, so
no tool is ever skipped here). -/
def getToolsAsAITools (clients : List MCPClientInstance) : List (String × AITool) :=
  clientsFold clients []

theorem toolsFold_preserves (clientName : String) :
    ∀ (tools : List (String × MCPToolDef)) (acc : List (String × AITool)) (key : String)
      (v : AITool), jsLookup acc key = some v →
      ∃ w, jsLookup (toolsFold clientName tools acc) key = some w
  | [], acc, key, v => fun h => ⟨v, h⟩
  | (tn, td) :: rest, acc, key, v => fun h => by
      simp only [toolsFold]
      have : jsLookup (jsAssign acc (clientName ++ "_" ++ tn) (mkAITool clientName tn td))
          key = some (if (clientName ++ "_" ++ tn) == key
            then mkAITool clientName tn td else v) := by
        rw [jsLookup_assign]
        cases hk : ((clientName ++ "_" ++ tn) == key) <;> simp [hk, h]
      exact toolsFold_preserves clientName rest _ key _ this

theorem toolsFold_registers (clientName : String) :
    ∀ (tools : List (String × MCPToolDef)) (acc : List (String × AITool))
      (e : String × MCPToolDef), e ∈ tools →
      ∃ w, jsLookup (toolsFold clientName tools acc) (clientName ++ "_" ++ e.1) = some w
  | [], _, e => fun h => absurd h (List.not_mem_nil e)
  | (tn, td) :: rest, acc, e => fun h => by
      rcases List.mem_cons.mp h with h | h
      · subst h
        simp only [toolsFold]
        refine toolsFold_preserves clientName rest _ _ (mkAITool clientName tn td) ?_
        rw [jsLookup_assign]
        simp
      · exact toolsFold_registers clientName rest _ e h

theorem clientsFold_preserves :
    ∀ (clients : List MCPClientInstance) (acc : List (String × AITool)) (key : String)
      (v : AITool), jsLookup acc key = some v →
      ∃ w, jsLookup (clientsFold clients acc) key = some w
  | [], acc, key, v => fun h => ⟨v, h⟩
  | inst :: rest, acc, key, v => fun h => by
      simp only [clientsFold]
      split
      · obtain ⟨w, hw⟩ := toolsFold_preserves inst.name inst.tools acc key v h
        exact clientsFold_preserves rest _ key w hw
      · exact clientsFold_preserves rest _ key v h

theorem clientsFold_registers :
    ∀ (clients : List MCPClientInstance) (acc : List (String × AITool))
      (inst : MCPClientInstance), inst ∈ clients → inst.status = .connected →
      inst.hasClient = true → ∀ e ∈ inst.tools,
      ∃ w, jsLookup (clientsFold clients acc) (inst.name ++ "_" ++ e.1) = some w
  | [], _, inst => fun h => absurd h (List.not_mem_nil inst)
  | inst' :: rest, acc, inst => fun hmem hconn hcl e he => by
      rcases List.mem_cons.mp hmem with h | h
      · subst h
        simp only [clientsFold]
        rw [if_pos (And.intro hconn hcl)]
        obtain ⟨w, hw⟩ := toolsFold_registers inst.name inst.tools acc e he
        exact clientsFold_preserves rest _ _ w hw
      · exact clientsFold_registers rest _ inst h hconn hcl e he

/-- Appending the same suffix to two distinct strings keeps them distinct. -/
theorem append_ne_of_ne (s₁ s₂ t : String) (h : s₁ ≠ s₂) : s₁ ++ t ≠ s₂ ++ t := by
  intro he
  have hd := congrArg String.data he
  simp only [String.data_append] at hd
  exact h (String.ext (List.append_cancel_right hd))

/-- C8: every tool of every connected source is exposed in the merged registry
under the composed name `<sourceName>_<toolName>`; and for two distinct
sources that both expose a tool literally named `read`, both tools are
retained and individually addressable under their composed names, neither
overwriting the other. -/
theorem C8_composed_names_no_collision :
    (∀ (clients : List MCPClientInstance), ∀ inst ∈ clients,
      inst.status = .connected → inst.hasClient = true → ∀ e ∈ inst.tools,
      ∃ w, jsLookup (getToolsAsAITools clients) (inst.name ++ "_" ++ e.1) = some w) ∧
    (∀ (s₁ s₂ : String) (d₁ d₂ : MCPToolDef), s₁ ≠ s₂ →
      jsLookup (getToolsAsAITools
          [{ name := s₁, status := .connected, hasClient := true, tools := [("read", d₁)] },
           { name := s₂, status := .connected, hasClient := true, tools := [("read", d₂)] }])
          (s₁ ++ "_read") = some (mkAITool s₁ "read" d₁) ∧
      jsLookup (getToolsAsAITools
          [{ name := s₁, status := .connected, hasClient := true, tools := [("read", d₁)] },
           { name := s₂, status := .connected, hasClient := true, tools := [("read", d₂)] }])
          (s₂ ++ "_read") = some (mkAITool s₂ "read" d₂)) := by
  constructor
  · intro clients inst hmem hconn hcl e he
    exact clientsFold_registers clients [] inst hmem hconn hcl e he
  · intro s₁ s₂ d₁ d₂ hne
    have hreg : getToolsAsAITools
        [{ name := s₁, status := .connected, hasClient := true, tools := [("read", d₁)] },
         { name := s₂, status := .connected, hasClient := true, tools := [("read", d₂)] }]
        = jsAssign (jsAssign [] (s₁ ++ "_read") (mkAITool s₁ "read" d₁))
            (s₂ ++ "_read") (mkAITool s₂ "read" d₂) := by
      have hk : ∀ s : String, s ++ "_" ++ "read" = s ++ "_read" := fun s => by
        rw [String.append_assoc]
        exact congrArg (fun t => s ++ t) (by decide)
      simp [getToolsAsAITools, clientsFold, toolsFold, hk]
    rw [hreg, jsLookup_assign, jsLookup_assign, jsLookup_assign]
    have h12 : ((s₂ ++ "_read") == (s₁ ++ "_read")) = false := by
      simp only [beq_eq_false_iff_ne]
      exact append_ne_of_ne s₂ s₁ "_read" (Ne.symm hne)
    have h11 : ((s₁ ++ "_read") == (s₁ ++ "_read")) = true := by simp
    have h22 : ((s₂ ++ "_read") == (s₂ ++ "_read")) = true := by simp
    rw [h12, h11, h22]
    simp

/-- Witness for C8 at the concrete sources `alpha` and `beta`. -/
theorem C8_composed_names_no_collision_witness :
    jsLookup (getToolsAsAITools
        [{ name := "alpha", status := .connected, hasClient := true,
           tools := [("read", { description := none, inputSchema := none })] },
         { name := "beta", status := .connected, hasClient := true,
           tools := [("read", { description := none, inputSchema := none })] }])
        ("alpha" ++ "_read")
      = some (mkAITool "alpha" "read" { description := none, inputSchema := none }) ∧
    jsLookup (getToolsAsAITools
        [{ name := "alpha", status := .connected, hasClient := true,
           tools := [("read", { description := none, inputSchema := none })] },
         { name := "beta", status := .connected, hasClient := true,
           tools := [("read", { description := none, inputSchema := none })] }])
        ("beta" ++ "_read")
      = some (mkAITool "beta" "read" { description := none, inputSchema := none }) :=
  C8_composed_names_no_collision.2 "alpha" "beta"
    { description := none, inputSchema := none }
    { description := none, inputSchema := none }
    (by decide)

end Chat

/-! ## Skills module (`validateSkillName`, `createSkill`) -/

namespace Chat

structure ValidationResult where
  valid : Bool
  error : Option String := none
deriving Repr, DecidableEq

/-- Whether `pat` is an initial run of `s` (JS `startsWith`, over chars). -/
def startsWithChars : List Char → List Char → Bool
  | [], _ => true
  | _ :: _, [] => false
  | p :: ps, c :: cs => p == c && startsWithChars ps cs

/-- Whether `pat` occurs contiguously in the string (JS `includes`). -/
def containsChars (pat : List Char) : List Char → Bool
  | [] => pat.isEmpty
  | c :: cs => startsWithChars pat (c :: cs) || containsChars pat cs

/-- The character class of the `^[a-zA-Z0-9_-]+$` check. -/
def isAllowedNameChar (c : Char) : Bool :=
  ('a' ≤ c && c ≤ 'z') || ('A' ≤ c && c ≤ 'Z') || ('0' ≤ c && c ≤ '9') ||
    c == '-' || c == '_'

/-- JS `!name || !name.trim()`: the name is empty or whitespace-only. -/
def isBlankName (name : String) : Bool :=
  name.data.all Char.isWhitespace

/-- `validateSkillName` from the skills loader (the final regex `+` demands a
non-empty name, which the earlier blank check already enforces, so checking
all characters suffices). -/
def validateSkillName (name : String) : ValidationResult :=
  if isBlankName name then { valid := false, error := some "名称不能为空" }
  else if containsChars ['.', '.'] name.data then
    { valid := false, error := some "名称不能包含 \"..\"" }
  else if startsWithChars ['/'] name.data || startsWithChars ['\\'] name.data then
    { valid := false, error := some "名称不能是绝对路径" }
  else if containsChars ['/'] name.data || containsChars ['\\'] name.data then
    { valid := false, error := some "名称不能包含路径分隔符" }
  else if !(name.data.all isAllowedNameChar) then
    { valid := false, error := some "名称只能包含字母、数字、连字符和下划线" }
  else { valid := true }

/-- A filesystem mutation performed by `createSkill`. -/
inductive FsWrite
  | mkdir (path : String)
  | writeFile (path : String) (content : String)
deriving Repr, DecidableEq

structure CreateSkillResult where
  success : Bool
  error : Option String := none
  message : Option String := none
  path : Option String := none
  skillDir : Option String := none
deriving Repr, DecidableEq

/-- `w.charAt(0).toUpperCase() + w.slice(1)`. -/
def capitalizeWord (w : String) : String :=
  match w.data with
  | [] => ""
  | c :: rest => String.mk (c.toUpper :: rest)

/-- `name.split('-').map(capitalize).join(' ')`. -/
def skillTitle (name : String) : String :=
  " ".intercalate ((name.splitOn "-").map capitalizeWord)

/-- The generated SKILL.md template. -/
def skillTemplate (name description : String) (content : Option String) : String :=
  "---\nname: " ++ name ++ "\ndescription: " ++ description ++ "\n---\n\n# " ++
    skillTitle name ++ " 技能\n\n## 描述\n\n" ++ description ++
    "\n\n## 使用场景\n\n- [场景 1: 当用户要求...]\n- [场景 2: 当需要...]\n\n" ++
    "## 使用方法\n\n### 步骤 1: [第一步]\n[说明第一步要做什么]\n\n" ++
    "### 步骤 2: [第二步]\n[说明第二步要做什么]\n\n" ++
    "## 最佳实践\n\n- [最佳实践 1]\n- [最佳实践 2]\n\n" ++
    "## 示例\n\n### 示例 1\n\n**用户请求:** \"[示例请求]\"\n\n" ++
    "**方法:**\n1. [分步骤说明]\n2. [使用的工具和命令]\n3. [预期结果]\n\n" ++
    (match content with
     | some c => "\n## 自定义内容\n\n" ++ c
     | none => "") ++ "\n"

/-- The skill directory `path.join(targetDir, name)`, where the target is the
project skills directory when `projectLevel` is set and one is configured,
else the user skills directory (the path separator is modelled as `/`). -/
def skillDirOf (name : String) (projectLevel : Bool)
    (projectSkillsDir : Option String) (userSkillsDir : String) : String :=
  (match projectLevel, projectSkillsDir with
   | true, some d => d
   | _, _ => userSkillsDir) ++ "/" ++ name

/-- `SkillsManager.getTools().createSkill.execute`.  The filesystem is
abstracted by the `dirExists` predicate; the second component records the
filesystem mutations performed (`fs.mkdirSync`, then `fs.writeFileSync`), in
order.  The `this.reload()` after a successful write only re-reads the
catalog and mutates no files. -/
def createSkill (name description : String) (content : Option String)
    (projectLevel : Bool) (projectSkillsDir : Option String) (userSkillsDir : String)
    (dirExists : String → Bool) : CreateSkillResult × List FsWrite :=
  if (validateSkillName name).valid = false then
    ({ success := false, error := (validateSkillName name).error }, [])
  else if dirExists (skillDirOf name projectLevel projectSkillsDir userSkillsDir) then
    ({ success := false,
       error := some ("技能 \"" ++ name ++ "\" 已存在于 " ++
         skillDirOf name projectLevel projectSkillsDir userSkillsDir) }, [])
  else
    ({ success := true,
       message := some ("技能 \"" ++ name ++ "\" 创建成功"),
       path := some (skillDirOf name projectLevel projectSkillsDir userSkillsDir
         ++ "/SKILL.md"),
       skillDir := some (skillDirOf name projectLevel projectSkillsDir userSkillsDir) },
     [FsWrite.mkdir (skillDirOf name projectLevel projectSkillsDir userSkillsDir),
      FsWrite.writeFile (skillDirOf name projectLevel projectSkillsDir userSkillsDir
        ++ "/SKILL.md") (skillTemplate name description content)])

/-- Every failed validation carries one of the fixed non-empty error
messages. -/
theorem validateSkillName_invalid_error (name : String) :
    (validateSkillName name).valid = false →
    ∃ e, (validateSkillName name).error = some e ∧ e ≠ "" := by
  unfold validateSkillName
  split
  · exact fun _ => ⟨_, rfl, by decide⟩
  · split
    · exact fun _ => ⟨_, rfl, by decide⟩
    · split
      · exact fun _ => ⟨_, rfl, by decide⟩
      · split
        · exact fun _ => ⟨_, rfl, by decide⟩
        · split
          · exact fun _ => ⟨_, rfl, by decide⟩
          · intro h; simp at h

/-- C10: a name that fails validation (blank, `..`, leading separator,
separator anywhere, or a character outside letters / digits / hyphen /
underscore) — and likewise a name whose skill directory already exists —
makes `createSkill` return `success := false` with a non-empty error and
perform no filesystem write at all. -/
theorem C10_createSkill_rejects_without_write
    (name description : String) (content : Option String) (projectLevel : Bool)
    (projectSkillsDir : Option String) (userSkillsDir : String)
    (dirExists : String → Bool)
    (hbad : (validateSkillName name).valid = false ∨
      dirExists (skillDirOf name projectLevel projectSkillsDir userSkillsDir) = true) :
    (createSkill name description content projectLevel projectSkillsDir userSkillsDir
        dirExists).1.success = false ∧
    (∃ e, (createSkill name description content projectLevel projectSkillsDir
        userSkillsDir dirExists).1.error = some e ∧ e ≠ "") ∧
    (createSkill name description content projectLevel projectSkillsDir userSkillsDir
        dirExists).2 = [] := by
  by_cases hv : (validateSkillName name).valid = false
  · obtain ⟨e, he, hne⟩ := validateSkillName_invalid_error name hv
    unfold createSkill
    rw [if_pos hv]
    exact ⟨rfl, ⟨e, he, hne⟩, rfl⟩
  · rcases hbad with h | h
    · exact absurd h hv
    · unfold createSkill
      rw [if_neg hv, if_pos h]
      refine ⟨rfl, ⟨_, rfl, ?_⟩, rfl⟩
      intro hemp
      have hlen : (("技能 \"" ++ name ++ "\" 已存在于 " ++
          skillDirOf name projectLevel projectSkillsDir userSkillsDir)).length = 0 := by
        rw [hemp]; rfl
      simp only [String.length_append] at hlen
      have : 0 < "技能 \"".length := by decide
      omega

/-- Witness for C10 at the path-traversal name `../evil`. -/
theorem C10_createSkill_rejects_without_write_witness :
    (createSkill "../evil" "d" none false none "skills" (fun _ => false)).1.success
      = false ∧
    (∃ e, (createSkill "../evil" "d" none false none "skills"
        (fun _ => false)).1.error = some e ∧ e ≠ "") ∧
    (createSkill "../evil" "d" none false none "skills" (fun _ => false)).2 = [] :=
  C10_createSkill_rejects_without_write "../evil" "d" none false none "skills"
    (fun _ => false) (Or.inl (by decide))

end Chat
